import Mathlib

/-!
Verification development for the mongodb-change-streams-example repository.

The first part embeds `src/index.ts` directly: the change-event documents the
script observes, the hardcoded aggregation pipeline of `main`, the three
monitoring functions (event-emitter callback, blocking hasNext/next pull, and
stream piping), and the try/finally shape of `main` itself.

The second part models, from the specification's own words, the resilience
layer the specification designs (resume tokens, reconnect supervisor, backoff,
token store): that layer has no implementation under src, so each of those
definitions carries a doc comment starting with `Modelled from the spec:`.
-/

/-- A change event document as the script observes it: the operation type and
the two address fields that the hardcoded pipeline in `main` inspects, plus an
opaque payload standing for the rest of the document. -/
structure ChangeEventDoc where
  operationType : String
  country : String
  market : String
  payload : String
  deriving DecidableEq, Repr

/-- A single aggregation match stage of the shape `main` builds: optional
exact-match conditions on the operation type, the address country and the
address market. An absent condition accepts every document. -/
structure MatchStage where
  opType : Option String
  countryCond : Option String
  marketCond : Option String
  deriving DecidableEq, Repr

/-- Whether one match stage accepts a document: the conjunction of its three
optional exact-match conditions. -/
def stageMatches (st : MatchStage) (e : ChangeEventDoc) : Bool :=
  (match st.opType with
   | none => true
   | some v => e.operationType == v) &&
  (match st.countryCond with
   | none => true
   | some v => e.country == v) &&
  (match st.marketCond with
   | none => true
   | some v => e.market == v)

/-- An aggregation pipeline as the script uses one: a list of match stages,
all of which must accept a document for it to pass. The empty pipeline
accepts every document. -/
def matchesPipeline (p : List MatchStage) (e : ChangeEventDoc) : Bool :=
  p.all (fun st => stageMatches st e)

/-- The pipeline literal built in `main` (src/index.ts lines 13-21): match
operation type insert, address country Australia, address market Sydney. -/
def mainPipeline : List MatchStage :=
  [MatchStage.mk (some "insert") (some "Australia") (some "Sydney")]

/-- Semantics of `collection.watch(pipeline)`: the server delivers to the
change stream, in arrival order, exactly those change events the pipeline
accepts. -/
def watchOut (p : List MatchStage) (events : List ChangeEventDoc) : List ChangeEventDoc :=
  events.filter (fun e => matchesPipeline p e)

/-- The `change` listener registered by `monitorListingsUsingEventEmitter`
(src/index.ts line 64): each delivered event is appended to the log. -/
def emitterLog (logs : List ChangeEventDoc) (next : ChangeEventDoc) : List ChangeEventDoc :=
  logs ++ [next]

/-- Embedding of `monitorListingsUsingEventEmitter` (src/index.ts lines
53-69): watch the collection with the given pipeline and log each `change`
event as it fires, in arrival order. The result is the log sequence. -/
def monitorListingsUsingEventEmitter (p : List MatchStage) (events : List ChangeEventDoc) :
    List ChangeEventDoc :=
  (watchOut p events).foldl emitterLog []

/-- One awaited interaction of the hasNext/next loop with the change stream:
either a change event arrives, or the await throws an error. A thrown error
carries its message and whether `changeStream.isClosed()` is true at the
moment the catch block runs. Reaching the end of the interaction list stands
for `hasNext()` resolving to false. -/
inductive Pull where
  | ev : ChangeEventDoc → Pull
  | fault : String → Bool → Pull
  deriving DecidableEq, Repr

/-- The `while (await changeStream.hasNext())` loop body of
`monitorListingsUsingHasNext` (src/index.ts lines 97-99): log each event in
arrival order until the stream reports no further change, or stop at the
first thrown error, remembering its message and the closed flag. -/
def hasNextLoop : List Pull → List ChangeEventDoc × Option (String × Bool)
  | [] => ([], none)
  | Pull.ev d :: rest =>
      let r := hasNextLoop rest
      (d :: r.1, r.2)
  | Pull.fault msg closed :: _ => ([], some (msg, closed))

/-- Embedding of `monitorListingsUsingHasNext` (src/index.ts lines 78-109):
run the hasNext/next loop; when an error is thrown, the catch block swallows
it and returns normally when the change stream is closed, and rethrows the
same error otherwise. The ok value is the sequence of logged documents. -/
def monitorListingsUsingHasNext (pulls : List Pull) : Except String (List ChangeEventDoc) :=
  match hasNextLoop pulls with
  | (logs, none) => Except.ok logs
  | (logs, some (msg, closed)) =>
      if closed then Except.ok logs else Except.error msg

/-- Embedding of `monitorListingsUsingHasNext` on a run in which the change
stream delivers the watched events and then ends without a thrown error. -/
def monitorHasNextComplete (p : List MatchStage) (events : List ChangeEventDoc) :
    Except String (List ChangeEventDoc) :=
  monitorListingsUsingHasNext ((watchOut p events).map Pull.ev)

/-- The `write` function of the object-mode writable built in
`monitorListingsUsingStreamAPI` (src/index.ts lines 132-138): log the
document and invoke the callback, leaving the document unchanged. -/
def writableWrite (doc : ChangeEventDoc) : ChangeEventDoc :=
  doc

/-- Embedding of `monitorListingsUsingStreamAPI` (src/index.ts lines
118-143): pipe the change stream into the writable, which logs each
delivered document in order. -/
def monitorListingsUsingStreamAPI (p : List MatchStage) (events : List ChangeEventDoc) :
    List ChangeEventDoc :=
  (watchOut p events).map writableWrite

/-- The monitoring call `main` actually executes (src/index.ts line 27):
`monitorListingsUsingEventEmitter(client, 30000)` passes no pipeline
argument, so the parameter takes its declared default, the empty list. -/
def mainMonitorOutput (events : List ChangeEventDoc) : List ChangeEventDoc :=
  monitorListingsUsingEventEmitter [] events

/-- The MongoClient handle `main` creates: whether `client.close()` has run
on it. -/
structure ClientState where
  clientClosed : Bool
  deriving DecidableEq, Repr

/-- How the body of the `try` block in `main` (src/index.ts lines 9-34) can
end: `client.connect()` throws, the awaited monitor throws during its setup
or streaming, the awaited monitor is rejected by a cancellation, or the
monitor returns normally after its timeout elapses. -/
inductive TryExit where
  | connectError : String → TryExit
  | monitorError : String → TryExit
  | cancelled : String → TryExit
  | normalTimeout : TryExit
  deriving DecidableEq, Repr

/-- The outcome the `try` body of `main` produces before the `finally` block
runs: an error value on every thrown or rejected path, unit on the normal
path. -/
def tryBodyResult : TryExit → Except String Unit
  | TryExit.connectError m => Except.error m
  | TryExit.monitorError m => Except.error m
  | TryExit.cancelled m => Except.error m
  | TryExit.normalTimeout => Except.ok ()

/-- Effect of `await client.close()` (src/index.ts line 37). -/
def clientClose (_ : ClientState) : ClientState :=
  ClientState.mk true

/-- Semantics of a try/finally whose finally block is `client.close()`: the
body's outcome, thrown or normal, propagates only after the close has been
applied to the client. -/
def tryFinallyClose (body : Except String Unit) (c : ClientState) :
    Except String Unit × ClientState :=
  (body, clientClose c)

/-- Embedding of `main` (src/index.ts lines 4-39): create the client, run the
try body, and let the `finally` block close the client on every exit path
before the outcome escapes to the caller. -/
def mainRun (x : TryExit) : Except String Unit × ClientState :=
  tryFinallyClose (tryBodyResult x) (ClientState.mk false)

/-- Modelled from the spec: the repository has no resilience layer, so the
`ChangeEvent` of the specification's data model is built from its words — an
event carrying an opaque payload and a `position` resume token, tokens being
totally ordered by the feed-defined sequence (modelled as naturals). -/
structure ChangeEvent where
  position : Nat
  payload : String
  deriving DecidableEq, Repr

/-- The feed's ordering: along the event sequence of one feed, positions
strictly increase. -/
def FeedOrdered (feed : List ChangeEvent) : Prop :=
  feed.Pairwise (fun a b => a.position < b.position)

/-- Modelled from the spec: `FeedConnection.open` with an optional resume
token, absent from src. A resume token means resume from just after here:
the feed replays, in order, exactly its events whose position is strictly
greater than the token; with no token the whole feed is delivered. -/
def subscribeFrom (resumeAfter : Option Nat) (feed : List ChangeEvent) : List ChangeEvent :=
  match resumeAfter with
  | none => feed
  | some t => feed.filter (fun e => decide (t < e.position))

/-- Modelled from the spec: the `ReconnectSupervisor` backoff delay, absent
from src — delay of an attempt is the minimum of base times two to the
attempt number and the cap. The spec's jitter, being randomness, is not
modelled. -/
def backoffDelay (base cap attempt : Nat) : Nat :=
  min (base * 2 ^ attempt) cap

/-- Modelled from the spec: the `ResumeTokenStore`, absent from src — it
records the last saved resume token, if any. -/
structure ResumeTokenStore where
  latest : Option Nat
  deriving DecidableEq, Repr

/-- Modelled from the spec: `ResumeTokenStore.save`, unbatched — the store
keeps the token just saved. -/
def ResumeTokenStore.save (_s : ResumeTokenStore) (t : Nat) : ResumeTokenStore :=
  ResumeTokenStore.mk (some t)

/-- Modelled from the spec: `ResumeTokenStore.load` — the last saved token,
if any. -/
def ResumeTokenStore.load (s : ResumeTokenStore) : Option Nat :=
  s.latest

/-- Modelled from the spec: one `EventDispatcher.dispatch` step, absent from
src — deliver the event to the handler and, exactly when delivery succeeds,
instruct the store to persist the event's position. -/
def dispatchOne (handlerOk : ChangeEvent → Bool) (s : ResumeTokenStore) (e : ChangeEvent) :
    ResumeTokenStore :=
  if handlerOk e then s.save e.position else s

/-- Modelled from the spec: the dispatcher consuming a sequence of events one
at a time, in arrival order, threading the token store through. -/
def dispatchRun (handlerOk : ChangeEvent → Bool) (s : ResumeTokenStore)
    (events : List ChangeEvent) : ResumeTokenStore :=
  events.foldl (dispatchOne handlerOk) s

/-- Modelled from the spec: the states of the `ReconnectSupervisor` state
machine, absent from src. -/
inductive SupState where
  | Connected
  | Disconnected
  | BackingOff
  | GivingUp
  deriving DecidableEq, Repr

/-- Modelled from the spec: the external stimuli the supervisor reacts to —
a feed error or unexpected stream end, the decision point after a disconnect
(the always-taken move into backing off), and the three outcomes of a
reconnect attempt: success, failure, or a TokenExpired rejection. -/
inductive SupInput where
  | feedError
  | startBackoff
  | reconnectOk
  | reconnectFail
  | tokenExpired
  deriving DecidableEq, Repr

/-- Modelled from the spec: the commands the supervisor issues — attempt a
reconnect (true: resume from the stored token; false: resubscribe from now),
surface a gap warning to the consumer, or report a fatal failure. -/
inductive SupAction where
  | tryReconnect : Bool → SupAction
  | emitGap : SupAction
  | reportFatal : SupAction
  deriving DecidableEq, Repr

/-- The supervisor's extended state: control state plus the consecutive
failed-attempt counter, which resets on every Connected transition. -/
structure Supervisor where
  state : SupState
  attempt : Nat
  deriving DecidableEq, Repr

/-- Modelled from the spec: the `ReconnectSupervisor` transition function,
absent from src. Connected moves to Disconnected on a feed error;
Disconnected always moves to BackingOff, counting the attempt and attempting
a token-based reconnect after the backoff delay; from BackingOff a
successful reopen reconnects (counter reset), a TokenExpired rejection
reopens without a resume point and surfaces a gap warning (counter reset),
and a failed attempt gives up once the attempt count reaches the configured
maximum, otherwise cycles back through Disconnected. GivingUp is terminal. -/
def supStep (maxAttempts : Nat) (s : Supervisor) (i : SupInput) :
    Supervisor × List SupAction :=
  match s.state, i with
  | SupState.Connected, SupInput.feedError =>
      (Supervisor.mk SupState.Disconnected s.attempt, [])
  | SupState.Disconnected, SupInput.startBackoff =>
      (Supervisor.mk SupState.BackingOff (s.attempt + 1), [SupAction.tryReconnect true])
  | SupState.BackingOff, SupInput.reconnectOk =>
      (Supervisor.mk SupState.Connected 0, [])
  | SupState.BackingOff, SupInput.tokenExpired =>
      (Supervisor.mk SupState.Connected 0, [SupAction.tryReconnect false, SupAction.emitGap])
  | SupState.BackingOff, SupInput.reconnectFail =>
      if maxAttempts ≤ s.attempt then
        (Supervisor.mk SupState.GivingUp s.attempt, [SupAction.reportFatal])
      else
        (Supervisor.mk SupState.Disconnected s.attempt, [])
  | _, _ => (s, [])

/-- Iterating the supervisor over a list of inputs: the final state. -/
def supRun (maxAttempts : Nat) (s : Supervisor) : List SupInput → Supervisor
  | [] => s
  | i :: rest => supRun maxAttempts (supStep maxAttempts s i).1 rest

/-- Iterating the supervisor over a list of inputs: every action issued along
the way, in order. -/
def supRunActions (maxAttempts : Nat) (s : Supervisor) : List SupInput → List SupAction
  | [] => []
  | i :: rest =>
      (supStep maxAttempts s i).2 ++ supRunActions maxAttempts (supStep maxAttempts s i).1 rest

/-- The input trace of n consecutive failing reconnect attempts: each cycle
backs off, tries, and fails. -/
def failCycles : Nat → List SupInput
  | 0 => []
  | n + 1 => SupInput.startBackoff :: SupInput.reconnectFail :: failCycles n

/-- Folding the emitter log over a sequence appends that sequence to the
accumulated log. -/
theorem foldl_emitterLog (l : List ChangeEventDoc) :
    ∀ acc : List ChangeEventDoc, l.foldl emitterLog acc = acc ++ l := by
  induction l with
  | nil => intro acc; simp
  | cons d tl ih => intro acc; simp [emitterLog, ih]

/-- On a fault-free pull sequence the hasNext/next loop logs every event in
order and ends without a remembered error. -/
theorem hasNextLoop_map_ev (l : List ChangeEventDoc) :
    hasNextLoop (l.map Pull.ev) = (l, none) := by
  induction l with
  | nil => rfl
  | cons d tl ih => simp [hasNextLoop, ih]

/-- On a pull sequence that throws after delivering a prefix of events, the
hasNext/next loop logs exactly that prefix and remembers the error. -/
theorem hasNextLoop_fault (l : List ChangeEventDoc) (msg : String) (closed : Bool)
    (rest : List Pull) :
    hasNextLoop (l.map Pull.ev ++ Pull.fault msg closed :: rest) = (l, some (msg, closed)) := by
  induction l with
  | nil => rfl
  | cons d tl ih => simp [hasNextLoop, ih]

/-- C2: for every pipeline and incoming event sequence, when the connection
delivers its N watched events without error, the handler of the
event-emitter monitor and the logging loop of the blocking-pull monitor are
each invoked exactly once per event, in the original arrival order: both
logs equal the delivered sequence itself. Delivery is sequential by
construction of the embedding (one event is consumed at a time). -/
theorem handler_once_per_event_in_order (p : List MatchStage) (events : List ChangeEventDoc) :
    monitorListingsUsingEventEmitter p events = watchOut p events ∧
    monitorListingsUsingHasNext ((watchOut p events).map Pull.ev) =
      Except.ok (watchOut p events) := by
  constructor
  · simp [monitorListingsUsingEventEmitter, foldl_emitterLog]
  · simp [monitorListingsUsingHasNext, hasNextLoop_map_ev]

/-- The writable's write step leaves documents unchanged, so piping is the
identity on the delivered sequence. -/
theorem map_writableWrite (l : List ChangeEventDoc) : l.map writableWrite = l := by
  induction l with
  | nil => rfl
  | cons d tl ih => simp [writableWrite, ih]

/-- C3: the three consumption styles are observationally equivalent surfaces
over one underlying event sequence: for every pipeline and incoming event
sequence (delivered to completion without error), the event-emitter monitor,
the blocking hasNext/next monitor and the stream-piping monitor emit the
same sequence of documents. -/
theorem three_styles_equivalent (p : List MatchStage) (events : List ChangeEventDoc) :
    monitorListingsUsingEventEmitter p events = monitorListingsUsingStreamAPI p events ∧
    monitorHasNextComplete p events = Except.ok (monitorListingsUsingStreamAPI p events) := by
  constructor
  · simp [monitorListingsUsingEventEmitter, monitorListingsUsingStreamAPI, map_writableWrite,
      foldl_emitterLog]
  · simp [monitorHasNextComplete, monitorListingsUsingHasNext, monitorListingsUsingStreamAPI,
      map_writableWrite, hasNextLoop_map_ev]

/-- C8: on every exit path of `main` — normal timeout, cancellation of the
awaited monitor, and errors thrown during setup or streaming — the
`finally` block closes the client before the run completes, and the body's
outcome propagates unchanged. -/
theorem connection_closed_on_every_exit (x : TryExit) :
    (mainRun x).2.clientClosed = true ∧ (mainRun x).1 = tryBodyResult x :=
  ⟨rfl, rfl⟩

/-- C9: main invokes the event-emitter monitor without a pipeline argument,
so the parameter defaults to the empty list and the hardcoded filter is
never applied: every change event is printed, including any event the
hardcoded pipeline would have rejected — while passing that pipeline would
have suppressed such an event. -/
theorem main_filter_never_applied (events : List ChangeEventDoc) (e : ChangeEventDoc)
    (h : matchesPipeline mainPipeline e = false) :
    mainMonitorOutput events = events ∧
    mainMonitorOutput [e] = [e] ∧
    monitorListingsUsingEventEmitter mainPipeline [e] = [] := by
  refine ⟨?_, ?_, ?_⟩
  · simp [mainMonitorOutput, monitorListingsUsingEventEmitter, watchOut, matchesPipeline,
      foldl_emitterLog]
  · simp [mainMonitorOutput, monitorListingsUsingEventEmitter, watchOut, matchesPipeline,
      foldl_emitterLog, emitterLog]
  · simp [monitorListingsUsingEventEmitter, watchOut, List.filter_cons, h, foldl_emitterLog,
      emitterLog]

/-- Witness for C9 at a concrete non-matching event: a delete in London is
outside the hardcoded filter, yet the executed path prints it. -/
theorem main_filter_never_applied_witness :
    matchesPipeline mainPipeline (ChangeEventDoc.mk "delete" "England" "London" "doc0") = false ∧
    (mainMonitorOutput [ChangeEventDoc.mk "update" "France" "Paris" "doc1"] =
        [ChangeEventDoc.mk "update" "France" "Paris" "doc1"] ∧
      mainMonitorOutput [ChangeEventDoc.mk "delete" "England" "London" "doc0"] =
        [ChangeEventDoc.mk "delete" "England" "London" "doc0"] ∧
      monitorListingsUsingEventEmitter mainPipeline
        [ChangeEventDoc.mk "delete" "England" "London" "doc0"] = []) :=
  ⟨by decide,
   main_filter_never_applied [ChangeEventDoc.mk "update" "France" "Paris" "doc1"]
     (ChangeEventDoc.mk "delete" "England" "London" "doc0") (by decide)⟩

/-- C10: in the blocking-pull monitor, an error thrown while awaiting the
stream after any prefix of events is swallowed (the function returns
normally with its logs) exactly when the change stream is closed at that
moment, and is rethrown to the caller unchanged otherwise. -/
theorem hasNext_error_swallow_or_rethrow (evs : List ChangeEventDoc) (msg : String)
    (closed : Bool) (rest : List Pull) :
    monitorListingsUsingHasNext (evs.map Pull.ev ++ Pull.fault msg closed :: rest) =
      if closed then Except.ok evs else Except.error msg := by
  simp [monitorListingsUsingHasNext, hasNextLoop_fault]

/-- After resuming from the position of the last delivered event of an
ordered feed, the new subscription replays exactly the events past that
point. -/
theorem subscribeFrom_resumes_after (pre post : List ChangeEvent) (e : ChangeEvent)
    (h : FeedOrdered (pre ++ e :: post)) :
    subscribeFrom (some e.position) (pre ++ e :: post) = post := by
  have h0 : (pre ++ e :: post).Pairwise (fun a b => a.position < b.position) := h
  have hsplit := List.pairwise_append.mp h0
  have hcons := List.pairwise_cons.mp hsplit.2.1
  show (pre ++ e :: post).filter (fun x => decide (e.position < x.position)) = post
  rw [List.filter_append pre (e :: post)]
  have hpre : pre.filter (fun x => decide (e.position < x.position)) = [] := by
    apply List.filter_eq_nil_iff.mpr
    intro a ha
    have hlt := hsplit.2.2 a ha e (by simp)
    simp only [decide_eq_true_eq]
    omega
  have hpost : (e :: post).filter (fun x => decide (e.position < x.position)) = post := by
    rw [List.filter_cons]
    have hself : (decide (e.position < e.position)) = false := by simp
    rw [hself]
    simp only [Bool.false_eq_true, if_false]
    apply List.filter_eq_self.mpr
    intro a ha
    simp only [decide_eq_true_eq]
    exact hcons.1 a ha
  rw [hpre, hpost]
  rfl

/-- C1: a feed connection fails after the consumer has received the first k
events of an ordered feed (pre then e, with k = pre.length + 1); the
supervisor reconnects with the still-valid resume token saved for event k,
and the consumer subsequently receives exactly the events after k — the
reconnected subscription delivers the remaining suffix, and the two
deliveries concatenate to the whole feed: each event exactly once, in
order, none duplicated and none skipped. -/
theorem reconnect_no_loss_no_duplication (pre post : List ChangeEvent) (e : ChangeEvent)
    (h : FeedOrdered (pre ++ e :: post)) :
    subscribeFrom (some e.position) (pre ++ e :: post) = post ∧
    (pre ++ [e]) ++ subscribeFrom (some e.position) (pre ++ e :: post) = pre ++ e :: post := by
  have hmain := subscribeFrom_resumes_after pre post e h
  refine ⟨hmain, ?_⟩
  rw [hmain]
  simp

/-- Witness for C1 on a concrete five-event ordered feed interrupted after
its third event. -/
theorem reconnect_no_loss_witness :
    FeedOrdered ([ChangeEvent.mk 1 "a", ChangeEvent.mk 2 "b"] ++
      ChangeEvent.mk 3 "c" :: [ChangeEvent.mk 5 "d", ChangeEvent.mk 8 "e"]) ∧
    (subscribeFrom (some (ChangeEvent.mk 3 "c").position)
        ([ChangeEvent.mk 1 "a", ChangeEvent.mk 2 "b"] ++
          ChangeEvent.mk 3 "c" :: [ChangeEvent.mk 5 "d", ChangeEvent.mk 8 "e"]) =
        [ChangeEvent.mk 5 "d", ChangeEvent.mk 8 "e"] ∧
      ([ChangeEvent.mk 1 "a", ChangeEvent.mk 2 "b"] ++ [ChangeEvent.mk 3 "c"]) ++
        subscribeFrom (some (ChangeEvent.mk 3 "c").position)
          ([ChangeEvent.mk 1 "a", ChangeEvent.mk 2 "b"] ++
            ChangeEvent.mk 3 "c" :: [ChangeEvent.mk 5 "d", ChangeEvent.mk 8 "e"]) =
        [ChangeEvent.mk 1 "a", ChangeEvent.mk 2 "b"] ++
          ChangeEvent.mk 3 "c" :: [ChangeEvent.mk 5 "d", ChangeEvent.mk 8 "e"]) :=
  ⟨by unfold FeedOrdered; decide,
   reconnect_no_loss_no_duplication [ChangeEvent.mk 1 "a", ChangeEvent.mk 2 "b"]
     [ChangeEvent.mk 5 "d", ChangeEvent.mk 8 "e"] (ChangeEvent.mk 3 "c")
     (by unfold FeedOrdered; decide)⟩

/-- C4 counterexample: with base delay 0 and cap 5, the computed delay of
attempt 1 is below the cap, yet the delay of attempt 2 is no larger — the
delay sequence does not strictly increase up to the cap as the claim
states it for every base. -/
theorem backoff_strict_increase_counterexample :
    backoffDelay 0 5 1 < 5 ∧ ¬ backoffDelay 0 5 1 < backoffDelay 0 5 2 := by
  decide

/-- C4 amended: for a positive base delay, the backoff delay of attempt i
equals min(base * 2 ^ i, cap); it never exceeds the cap, and it strictly
increases from one attempt to the next as long as it is below the cap. -/
theorem backoff_capped_and_strictly_increasing (base cap i : Nat) (h : 0 < base) :
    backoffDelay base cap i = min (base * 2 ^ i) cap ∧
    backoffDelay base cap i ≤ cap ∧
    (backoffDelay base cap i < cap →
      backoffDelay base cap i < backoffDelay base cap (i + 1)) := by
  refine ⟨rfl, Nat.min_le_right _ _, ?_⟩
  intro hlt
  have hbase : base * 2 ^ i < cap := by
    by_contra hc
    push_neg at hc
    have heq : backoffDelay base cap i = cap := Nat.min_eq_right hc
    omega
  have hpos : 0 < base * 2 ^ i := Nat.mul_pos h (Nat.two_pow_pos i)
  have hdouble : base * 2 ^ (i + 1) = base * 2 ^ i + base * 2 ^ i := by ring
  have h1 : backoffDelay base cap i = base * 2 ^ i := Nat.min_eq_left (Nat.le_of_lt hbase)
  rw [h1]
  show base * 2 ^ i < min (base * 2 ^ (i + 1)) cap
  refine lt_min ?_ hbase
  omega

/-- Witness for the amended C4 with base 2, cap 40, attempt 3. -/
theorem backoff_capped_witness :
    0 < 2 ∧
    (backoffDelay 2 40 3 = min (2 * 2 ^ 3) 40 ∧ backoffDelay 2 40 3 ≤ 40 ∧
      (backoffDelay 2 40 3 < 40 → backoffDelay 2 40 3 < backoffDelay 2 40 4)) :=
  ⟨by decide, backoff_capped_and_strictly_increasing 2 40 3 (by decide)⟩

/-- Unfolding one dispatch step of a dispatcher run. -/
theorem dispatchRun_cons (handlerOk : ChangeEvent → Bool) (s : ResumeTokenStore)
    (x : ChangeEvent) (l : List ChangeEvent) :
    dispatchRun handlerOk s (x :: l) = dispatchRun handlerOk (dispatchOne handlerOk s x) l :=
  rfl

/-- Running the dispatcher from a store holding token t over a feed-ordered
tail whose positions all dominate t leaves a loaded token of at least t. -/
theorem dispatchRun_load_ge (handlerOk : ChangeEvent → Bool) :
    ∀ (mid : List ChangeEvent) (t : Nat),
      (∀ x ∈ mid, t ≤ x.position) →
      mid.Pairwise (fun a b => a.position < b.position) →
      ∃ u, (dispatchRun handlerOk (ResumeTokenStore.mk (some t)) mid).load = some u ∧ t ≤ u := by
  intro mid
  induction mid with
  | nil => intro t ht hp; exact ⟨t, rfl, Nat.le_refl t⟩
  | cons x rest ih =>
      intro t ht hp
      have hp2 := List.pairwise_cons.mp hp
      rw [dispatchRun_cons]
      by_cases hx : handlerOk x = true
      · have hstep : dispatchOne handlerOk (ResumeTokenStore.mk (some t)) x =
            ResumeTokenStore.mk (some x.position) := by
          simp [dispatchOne, ResumeTokenStore.save, hx]
        rw [hstep]
        obtain ⟨u, hu, hle⟩ := ih x.position (fun y hy => Nat.le_of_lt (hp2.1 y hy)) hp2.2
        exact ⟨u, hu, Nat.le_trans (ht x (List.mem_cons_self x rest)) hle⟩
      · have hstep : dispatchOne handlerOk (ResumeTokenStore.mk (some t)) x =
            ResumeTokenStore.mk (some t) := by
          simp [dispatchOne, hx]
        rw [hstep]
        exact ih t (fun y hy => ht y (List.mem_cons_of_mem x hy)) hp2.2

/-- C5: after the dispatcher has successfully delivered event E of a
feed-ordered sequence and instructed the (unbatched) store to persist
E.position, the store's load returns a token at least E.position under the
feed's total ordering, and it still does after any number of further
dispatch steps. -/
theorem store_load_ge_after_dispatch (handlerOk : ChangeEvent → Bool)
    (s0 : ResumeTokenStore) (pre mid : List ChangeEvent) (E : ChangeEvent)
    (hord : FeedOrdered (pre ++ E :: mid)) (hE : handlerOk E = true) :
    ∃ t, (dispatchRun handlerOk s0 (pre ++ E :: mid)).load = some t ∧ E.position ≤ t := by
  have h0 : (pre ++ E :: mid).Pairwise (fun a b => a.position < b.position) := hord
  have hsplit := List.pairwise_append.mp h0
  have hcons := List.pairwise_cons.mp hsplit.2.1
  have happ : dispatchRun handlerOk s0 (pre ++ E :: mid) =
      dispatchRun handlerOk (dispatchRun handlerOk s0 pre) (E :: mid) := by
    simp [dispatchRun, List.foldl_append]
  rw [happ, dispatchRun_cons]
  have hstep : dispatchOne handlerOk (dispatchRun handlerOk s0 pre) E =
      ResumeTokenStore.mk (some E.position) := by
    simp [dispatchOne, ResumeTokenStore.save, hE]
  rw [hstep]
  exact dispatchRun_load_ge handlerOk mid E.position
    (fun y hy => Nat.le_of_lt (hcons.1 y hy)) hcons.2

/-- Witness for C5 on a concrete three-event ordered feed with an
always-succeeding handler, event E being the middle one. -/
theorem store_load_witness :
    FeedOrdered ([ChangeEvent.mk 1 "a"] ++ ChangeEvent.mk 2 "b" :: [ChangeEvent.mk 4 "c"]) ∧
    (fun _ => true : ChangeEvent → Bool) (ChangeEvent.mk 2 "b") = true ∧
    ∃ t, (dispatchRun (fun _ => true) (ResumeTokenStore.mk none)
        ([ChangeEvent.mk 1 "a"] ++ ChangeEvent.mk 2 "b" :: [ChangeEvent.mk 4 "c"])).load =
        some t ∧ (ChangeEvent.mk 2 "b").position ≤ t :=
  ⟨by unfold FeedOrdered; decide, rfl,
   store_load_ge_after_dispatch (fun _ => true) (ResumeTokenStore.mk none)
     [ChangeEvent.mk 1 "a"] [ChangeEvent.mk 4 "c"] (ChangeEvent.mk 2 "b")
     (by unfold FeedOrdered; decide) rfl⟩

/-- C6: from the BackingOff state, a TokenExpired reconnect failure makes
the supervisor reopen the feed without a resume point (a from-now
resubscription) and return to Connected with the attempt counter reset —
neither failing terminally nor retrying forever — and the gap warning
fires exactly once for that resubscription. -/
theorem token_expired_resubscribes_from_now (maxAttempts : Nat) (s : Supervisor)
    (h : s.state = SupState.BackingOff) :
    (supStep maxAttempts s SupInput.tokenExpired).1 = Supervisor.mk SupState.Connected 0 ∧
    (supStep maxAttempts s SupInput.tokenExpired).2 =
      [SupAction.tryReconnect false, SupAction.emitGap] ∧
    ((supStep maxAttempts s SupInput.tokenExpired).2.count SupAction.emitGap) = 1 := by
  obtain ⟨st, a⟩ := s
  have h2 : st = SupState.BackingOff := h
  subst h2
  exact ⟨rfl, rfl, rfl⟩

/-- Witness for C6 from a concrete BackingOff supervisor state. -/
theorem token_expired_witness :
    (Supervisor.mk SupState.BackingOff 2).state = SupState.BackingOff ∧
    ((supStep 3 (Supervisor.mk SupState.BackingOff 2) SupInput.tokenExpired).1 =
        Supervisor.mk SupState.Connected 0 ∧
      (supStep 3 (Supervisor.mk SupState.BackingOff 2) SupInput.tokenExpired).2 =
        [SupAction.tryReconnect false, SupAction.emitGap] ∧
      ((supStep 3 (Supervisor.mk SupState.BackingOff 2) SupInput.tokenExpired).2.count
          SupAction.emitGap) = 1) :=
  ⟨rfl, token_expired_resubscribes_from_now 3 (Supervisor.mk SupState.BackingOff 2) rfl⟩

/-- GivingUp is absorbing: every input leaves the supervisor in GivingUp and
issues no action, in particular no reconnect attempt. -/
theorem supStep_givingUp (maxAttempts a : Nat) (i : SupInput) :
    supStep maxAttempts (Supervisor.mk SupState.GivingUp a) i =
      (Supervisor.mk SupState.GivingUp a, []) := by
  cases i <;> rfl

/-- GivingUp absorbs whole input traces: the state never changes again and
no action is ever issued again. -/
theorem supRun_givingUp (maxAttempts a : Nat) (inputs : List SupInput) :
    supRun maxAttempts (Supervisor.mk SupState.GivingUp a) inputs =
      Supervisor.mk SupState.GivingUp a ∧
    supRunActions maxAttempts (Supervisor.mk SupState.GivingUp a) inputs = [] := by
  induction inputs with
  | nil => exact ⟨rfl, rfl⟩
  | cons i rest ih =>
      refine ⟨?_, ?_⟩
      · rw [supRun, supStep_givingUp]
        exact ih.1
      · rw [supRunActions, supStep_givingUp]
        simpa using ih.2

/-- From Disconnected with j failures already counted, maxAttempts minus j
further consecutive failing attempt cycles drive the supervisor into
GivingUp with the counter at maxAttempts. -/
theorem supRun_failCycles_reaches (maxAttempts : Nat) :
    ∀ (n j : Nat), j + n = maxAttempts → 0 < n →
      supRun maxAttempts (Supervisor.mk SupState.Disconnected j) (failCycles n) =
        Supervisor.mk SupState.GivingUp maxAttempts := by
  intro n
  induction n with
  | zero => intro j hj h0; omega
  | succ m ih =>
      intro j hj h0
      rw [failCycles, supRun, supRun]
      have hstep1 : (supStep maxAttempts (Supervisor.mk SupState.Disconnected j)
          SupInput.startBackoff).1 = Supervisor.mk SupState.BackingOff (j + 1) := rfl
      rw [hstep1]
      rcases Nat.eq_zero_or_pos m with hm | hm
      · subst hm
        have hge : maxAttempts ≤ j + 1 := by omega
        have hstep2 : (supStep maxAttempts (Supervisor.mk SupState.BackingOff (j + 1))
            SupInput.reconnectFail).1 = Supervisor.mk SupState.GivingUp (j + 1) := by
          simp [supStep, hge]
        rw [hstep2]
        have hj1 : j + 1 = maxAttempts := by omega
        rw [hj1]
        rfl
      · have hlt : ¬ maxAttempts ≤ j + 1 := by omega
        have hstep2 : (supStep maxAttempts (Supervisor.mk SupState.BackingOff (j + 1))
            SupInput.reconnectFail).1 = Supervisor.mk SupState.Disconnected (j + 1) := by
          simp [supStep, hlt]
        rw [hstep2]
        exact ih (j + 1) (by omega) hm

/-- C7: in a run where maxAttempts consecutive reconnect attempts fail, the
supervisor reaches the terminal GivingUp state, and that state is reached
exactly once in the sense that it is absorbing: every later input leaves
the state unchanged and issues no action, so no further reconnect attempt
is ever made. -/
theorem max_attempts_gives_up_terminally (maxAttempts : Nat) (h : 0 < maxAttempts) :
    supRun maxAttempts (Supervisor.mk SupState.Disconnected 0) (failCycles maxAttempts) =
      Supervisor.mk SupState.GivingUp maxAttempts ∧
    (∀ (a : Nat) (i : SupInput),
      supStep maxAttempts (Supervisor.mk SupState.GivingUp a) i =
        (Supervisor.mk SupState.GivingUp a, [])) ∧
    (∀ (a : Nat) (inputs : List SupInput),
      supRun maxAttempts (Supervisor.mk SupState.GivingUp a) inputs =
        Supervisor.mk SupState.GivingUp a ∧
      supRunActions maxAttempts (Supervisor.mk SupState.GivingUp a) inputs = []) :=
  ⟨supRun_failCycles_reaches maxAttempts maxAttempts 0 (Nat.zero_add maxAttempts) h,
   fun a i => supStep_givingUp maxAttempts a i,
   fun a inputs => supRun_givingUp maxAttempts a inputs⟩

/-- Witness for C7 with a maximum of two attempts: two failing cycles give
up, and from GivingUp a further input trace changes nothing and issues no
action. -/
theorem max_attempts_witness :
    0 < 2 ∧
    supRun 2 (Supervisor.mk SupState.Disconnected 0) (failCycles 2) =
      Supervisor.mk SupState.GivingUp 2 ∧
    supStep 2 (Supervisor.mk SupState.GivingUp 2) SupInput.startBackoff =
      (Supervisor.mk SupState.GivingUp 2, []) ∧
    supRunActions 2 (Supervisor.mk SupState.GivingUp 2)
      [SupInput.startBackoff, SupInput.reconnectFail] = [] :=
  ⟨by decide,
   (max_attempts_gives_up_terminally 2 (by decide)).1,
   (max_attempts_gives_up_terminally 2 (by decide)).2.1 2 SupInput.startBackoff,
   ((max_attempts_gives_up_terminally 2 (by decide)).2.2 2
     [SupInput.startBackoff, SupInput.reconnectFail]).2⟩
